import Mathlib

/-!
Verification of the matrix-multiplication core of `src/matrix.rs`.

The Rust source is shallowly embedded as follows.

* `Matrix T` mirrors `struct Matrix<T> { data: Vec<T>, row: usize, col: usize }`.
* `dot_product` mirrors `fn dot_product` (lines 47-61): a length check followed by
  an index-based accumulation loop starting from `T::default()`.
* `multiply` mirrors `fn multiply` (lines 64-87): dimension check, a zero-filled
  output buffer, and nested loops writing `data[i*b.col + j]`.  Rust slice
  expressions that can panic (`a.data[lo..hi]`, `b.data[j..]`) are modelled by
  `Option`-valued helpers (`sliceTo`, `dropFrom`); a panic surfaces as the
  distinguished error `MulErr.panicOutOfBounds` (a Rust panic aborts the call, so
  no `Result` value is produced; the embedding folds both into `Except`).
* `multiply_concurrency` mirrors `fn multiply_concurrency` (lines 90-152).  Its
  deterministic data flow is embedded directly: the dispatch loop builds one
  `MsgInput` per output cell in row-major order (lines 127-140); worker `w`
  receives, in dispatch order, exactly the tasks with `idx % NUM_THREADS = w`
  and processes its queue sequentially, stopping (its `?` on `dot_product`,
  line 110) at the first failing dot product; the collector (lines 142-145)
  receives in dispatch order and writes `data[msg.idx]`.  The two sources of
  environment nondeterminism are made explicit parameters:
  - `failed : Nat → Bool` says which `senders[idx % n].send(msg)` calls fail
    (lines 135-137).  A failed send drops the `SendError` together with the
    embedded oneshot sender, so the cell's receive later fails.
  - the pool size `n` is a parameter of the generalised model
    (`multiply_concurrency_f`, `multiply_concurrency_n`); the source fixes it to
    the constant `NUM_THREADS = 4` (line 10), which `multiply_concurrency` uses.
  A receive on a channel whose sender was dropped without sending yields
  `MulErr.recvError` (the `?` on `rx.recv()`, line 143).
* `displayMatrix` mirrors `impl Display for Matrix` (lines 166-186).

`stepBy` models `iter().step_by(k)`.  Rust's `step_by(0)` panics, but the source
only calls it with `b.col` inside a loop guarded by `j < b.col`, so `b.col ≥ 1`
at every call site; the embedding is total and agrees with Rust for `k ≥ 1`.
-/

namespace MatrixRs

/-- Error outcomes of the embedded functions.  `dimMismatch` is the
`anyhow!("Matrix a.col must equal to b.row")` error, `dotLenMismatch` the
`anyhow!("a.len must equal to b.len")` error, `recvError` the propagated
`oneshot::RecvError`, and `panicOutOfBounds` models a Rust slice-index panic. -/
inductive MulErr where
  | dimMismatch
  | dotLenMismatch
  | recvError
  | panicOutOfBounds
deriving DecidableEq

/-- `struct Matrix<T>` (lines 12-16): row-major data with dimensions. -/
structure Matrix (T : Type) where
  data : List T
  row : Nat
  col : Nat
deriving DecidableEq

/-- `struct MsgInput<T>` (lines 18-22): one task, the flat output index plus
copies of the relevant row of `a` and column of `b`. -/
structure MsgInput (T : Type) where
  idx : Nat
  row : List T
  col : List T
deriving DecidableEq

/-- `struct MsgOutput<T>` (lines 30-33): one reply, the flat index and value. -/
structure MsgOutput (T : Type) where
  idx : Nat
  data : T
deriving DecidableEq

/-- `const NUM_THREADS: usize = 4` (line 10). -/
def NUM_THREADS : Nat := 4

instance {ε α : Type} [DecidableEq ε] [DecidableEq α] : DecidableEq (Except ε α) := fun x y =>
  match x, y with
  | .ok a, .ok b =>
    if h : a = b then .isTrue (by rw [h]) else .isFalse (fun hc => h (Except.ok.inj hc))
  | .ok _, .error _ => .isFalse (fun hc => Except.noConfusion hc)
  | .error _, .ok _ => .isFalse (fun hc => Except.noConfusion hc)
  | .error e, .error f =>
    if h : e = f then .isTrue (by rw [h]) else .isFalse (fun hc => h (Except.error.inj hc))

variable {T : Type}

/-- Helper for `stepBy`: `skip` counts how many elements remain to be skipped
before the next one is kept. -/
def stepByAux : List T → Nat → Nat → List T
  | [], _, _ => []
  | x :: xs, k, 0 => x :: stepByAux xs k (k - 1)
  | _ :: xs, k, s + 1 => stepByAux xs k s

/-- `iter().step_by(k)`: every `k`-th element, starting with the first
(line 77 / line 130).  Agrees with Rust for `k ≥ 1` (see header note). -/
def stepBy (l : List T) (k : Nat) : List T := stepByAux l k 0

/-- Rust `&v[lo..hi]`: in range iff `lo ≤ hi ≤ v.len()`, else a panic. -/
def sliceTo (l : List T) (lo hi : Nat) : Option (List T) :=
  if lo ≤ hi ∧ hi ≤ l.length then some ((l.take hi).drop lo) else none

/-- Rust `&v[j..]`: in range iff `j ≤ v.len()`, else a panic. -/
def dropFrom (l : List T) (j : Nat) : Option (List T) :=
  if j ≤ l.length then some (l.drop j) else none

/-- The accumulation loop of `dot_product` (lines 55-58): `sum` starts at
`T::default()` and accumulates `a[i] * b[i]` for `i` in `0..a.len()`. -/
def dotSum [Inhabited T] [Add T] [Mul T] (a b : List T) : T :=
  (List.range a.length).foldl (fun sum i => sum + a.getD i default * b.getD i default) default

/-- `fn dot_product` (lines 47-61). -/
def dot_product [Inhabited T] [Add T] [Mul T] (a b : List T) : Except MulErr T :=
  if a.length ≠ b.length then .error .dotLenMismatch
  else .ok (dotSum a b)

/-- Row `i` of `a` as extracted by `a.data[i * a.col..(i + 1) * a.col].to_vec()`
(line 76 / line 129), as a total function (the in-range value). -/
def rowOf (a : Matrix T) (i : Nat) : List T :=
  (a.data.take ((i + 1) * a.col)).drop (i * a.col)

/-- Column `j` of `b` as extracted by
`b.data[j..].iter().step_by(b.col).cloned().collect()` (line 77 / line 130),
as a total function (the in-range value). -/
def colOf (b : Matrix T) (j : Nat) : List T :=
  stepBy (b.data.drop j) b.col

/-- Build the task for output cell `(i, j)`: the two slice extractions (lines
76-77 and 129-130 are textually identical) plus the flat index `i * b.col + j`.
`none` means one of the Rust slice expressions panics. -/
def mkTask (a b : Matrix T) (i j : Nat) : Option (MsgInput T) :=
  match sliceTo a.data (i * a.col) ((i + 1) * a.col), dropFrom b.data j with
  | some r, some rest => some ⟨i * b.col + j, r, stepBy rest b.col⟩
  | _, _ => none

/-- One body iteration of the sequential multiply (lines 75-78): extract the
slices and run `dot_product`. -/
def computeCell [Inhabited T] [Add T] [Mul T] (a b : Matrix T) (i j : Nat) : Except MulErr T :=
  match mkTask a b i j with
  | some t => dot_product t.row t.col
  | none => .error .panicOutOfBounds

/-- The index pairs visited by `for i in 0..r { for j in 0..c { ... } }`,
in iteration order. -/
def ijPairs (r c : Nat) : List (Nat × Nat) :=
  ((List.range r).map (fun i => (List.range c).map (fun j => (i, j)))).flatten

/-- The nested loops of `multiply` (lines 73-80), iterating over `ijPairs` and
writing `data[i * b.col + j]`; `?` propagates the first error. -/
def seqLoop [Inhabited T] [Add T] [Mul T] (a b : Matrix T) :
    List (Nat × Nat) → List T → Except MulErr (List T)
  | [], dat => .ok dat
  | p :: ps, dat =>
    match computeCell a b p.1 p.2 with
    | .error e => .error e
    | .ok v => seqLoop a b ps (dat.set (p.1 * b.col + p.2) v)

/-- `fn multiply` (lines 64-87). -/
def multiply [Inhabited T] [Add T] [Mul T] (a b : Matrix T) : Except MulErr (Matrix T) :=
  if a.col ≠ b.row then .error .dimMismatch
  else
    match seqLoop a b (ijPairs a.row b.col) (List.replicate (a.row * b.col) default) with
    | .error e => .error e
    | .ok dat => .ok ⟨dat, a.row, b.col⟩

/-- The dispatch loop of `multiply_concurrency` (lines 127-140): build one task
per output cell in row-major order.  `.error .panicOutOfBounds` models a slice
panic on the dispatching thread. -/
def dispatchLoop (a b : Matrix T) :
    List (Nat × Nat) → List (MsgInput T) → Except MulErr (List (MsgInput T))
  | [], acc => .ok acc
  | p :: ps, acc =>
    match mkTask a b p.1 p.2 with
    | some t => dispatchLoop a b ps (acc ++ [t])
    | none => .error .panicOutOfBounds

/-- The worker loop (lines 108-119): process the private queue in order,
replying with the dot product; the `?` on `dot_product` (line 110) ends the
thread at the first error, dropping all later replies of this worker. -/
def workerRun [Inhabited T] [Add T] [Mul T] : List (MsgInput T) → List (MsgOutput T)
  | [] => []
  | m :: rest =>
    match dot_product m.row m.col with
    | .ok v => ⟨m.idx, v⟩ :: workerRun rest
    | .error _ => []

/-- The queue of worker `w` under pool size `n`: the tasks whose send succeeded
and which round-robin (`idx % n`, line 135) assigns to `w`, in dispatch order. -/
def workerQueueF (ts : List (MsgInput T)) (failed : Nat → Bool) (n w : Nat) :
    List (MsgInput T) :=
  ts.filter (fun u => !failed u.idx && u.idx % n == w)

/-- The receive outcome of every reply channel, in dispatch order: `none` iff
the oneshot sender was dropped without sending (failed send, or the worker
stopped before reaching the task). -/
def repliesF [Inhabited T] [Add T] [Mul T] (ts : List (MsgInput T)) (failed : Nat → Bool)
    (n : Nat) : List (Option (MsgOutput T)) :=
  ts.map (fun t =>
    if failed t.idx then none
    else (workerRun (workerQueueF ts failed n (t.idx % n))).find? (fun o => o.idx == t.idx))

/-- The collection loop (lines 142-145): blocking receive in dispatch order,
writing `data[msg.idx]`; the `?` on `rx.recv()` aborts at the first failed
receive. -/
def collect : List (Option (MsgOutput T)) → List T → Except MulErr (List T)
  | [], dat => .ok dat
  | none :: _, _ => .error .recvError
  | some m :: rs, dat => collect rs (dat.set m.idx m.data)

/-- `fn multiply_concurrency` (lines 90-152), generalised over the pool size `n`
and the set of failing sends. -/
def multiply_concurrency_f [Inhabited T] [Add T] [Mul T] (failed : Nat → Bool) (n : Nat)
    (a b : Matrix T) : Except MulErr (Matrix T) :=
  if a.col ≠ b.row then .error .dimMismatch
  else
    match dispatchLoop a b (ijPairs a.row b.col) [] with
    | .error e => .error e
    | .ok ts =>
      match collect (repliesF ts failed n) (List.replicate (a.row * b.col) default) with
      | .error e => .error e
      | .ok dat => .ok ⟨dat, a.row, b.col⟩

/-- `multiply_concurrency` with pool size `n` and no environment failures. -/
def multiply_concurrency_n [Inhabited T] [Add T] [Mul T] (n : Nat) (a b : Matrix T) :
    Except MulErr (Matrix T) :=
  multiply_concurrency_f (fun _ => false) n a b

/-- `fn multiply_concurrency` as written: pool size `NUM_THREADS`. -/
def multiply_concurrency [Inhabited T] [Add T] [Mul T] (a b : Matrix T) :
    Except MulErr (Matrix T) :=
  multiply_concurrency_n NUM_THREADS a b

/-- `impl Display for Matrix` (lines 166-186): braces around the cells, one
space after every non-last column, one comma after every non-last row. -/
def displayMatrix [Inhabited T] [ToString T] (m : Matrix T) : String :=
  "\x7b" ++
    ((List.range m.row).foldl (fun s i =>
      ((List.range m.col).foldl (fun s j =>
        let s := s ++ toString (m.data.getD (i * m.col + j) default)
        if j ≠ m.col - 1 then s ++ " " else s) s) ++
      (if i ≠ m.row - 1 then "," else "")) "") ++
  "\x7d"

/-- Concatenation of a list of strings (spec-side helper). -/
def strConcat : List String → String
  | [] => ""
  | x :: xs => x ++ strConcat xs

/-- Separator join with no trailing separator (spec-side helper for the
Display contract: elements joined by `sep`). -/
def joinSep (sep : String) : List String → String
  | [] => ""
  | [x] => x
  | x :: y :: xs => x ++ sep ++ joinSep sep (y :: xs)

/-- The rows of a matrix, as the spec describes them: consecutive chunks of
`col` elements of the row-major data. -/
def rowsOf (m : Matrix T) : List (List T) :=
  (List.range m.row).map (fun i => (m.data.take ((i + 1) * m.col)).drop (i * m.col))

/-- The Display contract as the spec words it: `{` + rows joined by `,` + `}`,
each row rendering its elements space-separated. -/
def renderSpec [ToString T] (m : Matrix T) : String :=
  "\x7b" ++ joinSep "," ((rowsOf m).map (fun r => joinSep " " (r.map toString))) ++ "\x7d"

/-- The output data the spec ascribes to `multiply`: cell `k` holds the dot
product of row `k / b.col` of `a` and column `k % b.col` of `b`. -/
def multiplySpecData [Inhabited T] [Add T] [Mul T] (a b : Matrix T) : List T :=
  (List.range (a.row * b.col)).map (fun k => dotSum (rowOf a (k / b.col)) (colOf b (k % b.col)))

/-- Proof-side description of the task built for pair `p`: `mkTask` yields
exactly this whenever the slice expressions are in range. -/
def taskOf (a b : Matrix T) (p : Nat × Nat) : MsgInput T :=
  ⟨p.1 * b.col + p.2, rowOf a p.1, colOf b p.2⟩

/-! Section: Basic lemmas about the slicing helpers -/

theorem stepByAux_eq (k : Nat) :
    ∀ (l : List T) (s : Nat), stepByAux l k s = stepBy (l.drop s) k := by
  intro l
  induction l with
  | nil => intro s; cases s <;> rfl
  | cons x xs ih =>
    intro s
    cases s with
    | zero => rfl
    | succ s =>
      rw [List.drop_succ_cons]
      exact ih s

theorem stepBy_cons (x : T) (xs : List T) (k : Nat) :
    stepBy (x :: xs) k = x :: stepBy (xs.drop (k - 1)) k := by
  show stepByAux (x :: xs) k 0 = _
  rw [show stepByAux (x :: xs) k 0 = x :: stepByAux xs k (k - 1) from rfl, stepByAux_eq]

theorem stepBy_length (k : Nat) :
    ∀ (m : Nat) (l : List T) (j : Nat), j < k → l.length = m * k →
      (stepBy (l.drop j) k).length = m := by
  intro m
  induction m with
  | zero =>
    intro l j _ hl
    have : l = [] := List.eq_nil_of_length_eq_zero (by simpa using hl)
    subst this
    simp [stepBy, stepByAux]
  | succ m ih =>
    intro l j hj hl
    have hk : 0 < k := by omega
    have hjl : j < l.length := by
      have hkk : k ≤ (m + 1) * k := Nat.le_mul_of_pos_left k (Nat.succ_pos m)
      omega
    rw [List.drop_eq_getElem_cons hjl, stepBy_cons, List.drop_drop]
    have he : j + 1 + (k - 1) = k + j := by omega
    rw [he, ← List.drop_drop]
    have hlen : (l.drop k).length = m * k := by
      rw [List.length_drop, hl]
      have : (m + 1) * k = m * k + k := by ring
      omega
    rw [List.length_cons, ih (l.drop k) j hj hlen]

theorem sliceTo_eq (l : List T) (lo hi : Nat) (h1 : lo ≤ hi) (h2 : hi ≤ l.length) :
    sliceTo l lo hi = some ((l.take hi).drop lo) := by
  simp [sliceTo, h1, h2]

theorem dropFrom_eq (l : List T) (j : Nat) (h : j ≤ l.length) :
    dropFrom l j = some (l.drop j) := by
  simp [dropFrom, h]

theorem dropFrom_none (l : List T) (j : Nat) (h : l.length < j) :
    dropFrom l j = none := by
  simp only [dropFrom, ite_eq_right_iff]
  omega

theorem rowOf_length (a : Matrix T) (i : Nat) (ha : a.data.length = a.row * a.col)
    (hi : i < a.row) : (rowOf a i).length = a.col := by
  have h2 : (i + 1) * a.col ≤ a.data.length := by
    rw [ha]; exact Nat.mul_le_mul_right _ hi
  rw [rowOf, List.length_drop, List.length_take, Nat.min_eq_left h2]
  have : (i + 1) * a.col = i * a.col + a.col := by ring
  omega

theorem colOf_length (b : Matrix T) (j : Nat) (hb : b.data.length = b.row * b.col)
    (hj : j < b.col) : (colOf b j).length = b.row :=
  stepBy_length b.col b.row b.data j hj hb

/-! Section: Lemmas about task construction -/

theorem mkTask_eq (a b : Matrix T) (i j : Nat) (ha : a.data.length = a.row * a.col)
    (hi : i < a.row) (hj : j ≤ b.data.length) :
    mkTask a b i j = some ⟨i * b.col + j, rowOf a i, colOf b j⟩ := by
  have h1 : i * a.col ≤ (i + 1) * a.col := Nat.mul_le_mul_right _ (Nat.le_succ i)
  have h2 : (i + 1) * a.col ≤ a.data.length := by
    rw [ha]; exact Nat.mul_le_mul_right _ hi
  rw [mkTask, sliceTo_eq a.data _ _ h1 h2, dropFrom_eq b.data j hj]
  rfl

theorem mkTask_none (a b : Matrix T) (i j : Nat) (hj : b.data.length < j) :
    mkTask a b i j = none := by
  rw [mkTask, dropFrom_none b.data j hj]
  cases sliceTo a.data (i * a.col) ((i + 1) * a.col) <;> rfl

theorem computeCell_ok [Inhabited T] [Add T] [Mul T] (a b : Matrix T) (i j : Nat)
    (hc : a.col = b.row) (ha : a.data.length = a.row * a.col)
    (hb : b.data.length = b.row * b.col) (hi : i < a.row) (hj : j < b.col)
    (hjd : j ≤ b.data.length) :
    computeCell a b i j = .ok (dotSum (rowOf a i) (colOf b j)) := by
  have hlen : (rowOf a i).length = (colOf b j).length := by
    rw [rowOf_length a i ha hi, colOf_length b j hb hj, hc]
  rw [computeCell, mkTask_eq a b i j ha hi hjd]
  show dot_product (rowOf a i) (colOf b j) = _
  rw [dot_product, if_neg (by simp [hlen])]

theorem computeCell_panic [Inhabited T] [Add T] [Mul T] (a b : Matrix T) (i j : Nat)
    (hj : b.data.length < j) :
    computeCell a b i j = .error .panicOutOfBounds := by
  rw [computeCell, mkTask_none a b i j hj]

/-! Section: Lemmas about the iteration space -/

theorem ijPairs_succ (r c : Nat) :
    ijPairs (r + 1) c = ijPairs r c ++ (List.range c).map (fun j => (r, j)) := by
  simp [ijPairs, List.range_succ]

theorem mem_ijPairs {r c : Nat} {p : Nat × Nat} : p ∈ ijPairs r c ↔ p.1 < r ∧ p.2 < c := by
  rw [ijPairs, List.mem_flatten]
  constructor
  · rintro ⟨l, hl, hp⟩
    rw [List.mem_map] at hl
    obtain ⟨i, hi, rfl⟩ := hl
    rw [List.mem_map] at hp
    obtain ⟨j, hj, rfl⟩ := hp
    exact ⟨List.mem_range.mp hi, List.mem_range.mp hj⟩
  · rintro ⟨h1, h2⟩
    refine ⟨(List.range c).map (fun j => (p.1, j)),
      List.mem_map.mpr ⟨p.1, List.mem_range.mpr h1, rfl⟩, ?_⟩
    exact List.mem_map.mpr ⟨p.2, List.mem_range.mpr h2, by cases p; rfl⟩

theorem ijPairs_map_idx (r c : Nat) :
    (ijPairs r c).map (fun p => p.1 * c + p.2) = List.range (r * c) := by
  induction r with
  | zero => simp [ijPairs]
  | succ r ih =>
    rw [ijPairs_succ, List.map_append, ih, List.map_map]
    rw [show (r + 1) * c = r * c + c from by ring, List.range_add]
    rfl

theorem ijPairs_length (r c : Nat) : (ijPairs r c).length = r * c := by
  have h := congrArg List.length (ijPairs_map_idx r c)
  simpa using h

/-! Section: Generic fold lemmas -/

theorem foldl_congr_mem {α β : Type} (l : List β) (f g : α → β → α) (init : α)
    (h : ∀ acc x, x ∈ l → f acc x = g acc x) : l.foldl f init = l.foldl g init := by
  induction l generalizing init with
  | nil => rfl
  | cons x xs ih =>
    rw [List.foldl_cons, List.foldl_cons, h init x (by simp)]
    exact ih _ (fun acc y hy => h acc y (by simp [hy]))

theorem foldl_set_range (v : Nat → T) :
    ∀ (n : Nat) (dat : List T), n ≤ dat.length →
      (List.range n).foldl (fun d k => d.set k (v k)) dat =
        (List.range n).map v ++ dat.drop n := by
  intro n
  induction n with
  | zero => intro dat _; simp
  | succ n ih =>
    intro dat h
    rw [List.range_succ, List.foldl_append, ih dat (by omega)]
    simp only [List.foldl_cons, List.foldl_nil]
    rw [List.set_append_right _ _ (by simp)]
    have hn : n < dat.length := by omega
    have hidx : n - (List.map v (List.range n)).length = 0 := by simp
    rw [hidx, List.drop_eq_getElem_cons hn, List.set_cons_zero]
    rw [List.map_append, List.append_assoc]
    rfl

/-! Section: The dot-product engine: claims C3 -/

theorem dotSum_eq_zip_foldl [Inhabited T] [Add T] [Mul T] :
    ∀ (a b : List T), a.length = b.length →
      dotSum a b = (a.zip b).foldl (fun s p => s + p.1 * p.2) default := by
  suffices h : ∀ (a b : List T), a.length = b.length → ∀ init : T,
      (List.range a.length).foldl
        (fun sum i => sum + a.getD i default * b.getD i default) init
        = (a.zip b).foldl (fun s p => s + p.1 * p.2) init by
    intro a b hl
    exact h a b hl default
  intro a
  induction a with
  | nil =>
    intro b hb init
    have : b = [] := List.eq_nil_of_length_eq_zero (by simpa using hb.symm)
    subst this
    simp
  | cons x xs ih =>
    intro b hb init
    cases b with
    | nil => simp at hb
    | cons y ys =>
      have hb' : xs.length = ys.length := by simpa using hb
      rw [List.length_cons, List.range_succ_eq_map, List.foldl_cons, List.foldl_map]
      have hbody : (fun (sum : T) (i : Nat) =>
            sum + (x :: xs).getD i.succ default * (y :: ys).getD i.succ default)
          = fun sum i => sum + xs.getD i default * ys.getD i default := by
        funext s i
        simp
      rw [hbody, List.zip_cons_cons, List.foldl_cons]
      have hhead : init + (x :: xs).getD 0 default * (y :: ys).getD 0 default = init + x * y := by
        simp
      rw [hhead]
      exact ih ys hb' (init + x * y)

/-- Claim C3: `dot_product` returns an error exactly when the lengths differ;
otherwise it returns the sum over `i` of `a[i] * b[i]`, accumulated in
lock-step order starting from the additive identity `T::default()`. -/
theorem C3_dot_product_spec [Inhabited T] [Add T] [Mul T] (a b : List T) :
    (a.length ≠ b.length → dot_product a b = .error .dotLenMismatch) ∧
    (a.length = b.length →
      dot_product a b = .ok ((a.zip b).foldl (fun s p => s + p.1 * p.2) default)) := by
  constructor
  · intro h
    rw [dot_product, if_pos h]
  · intro h
    rw [dot_product, if_neg (by simp [h]), dotSum_eq_zip_foldl a b h]

/-- Witness for C3: a concrete equal-length pair and a concrete mismatched pair. -/
theorem C3_witness :
    dot_product ([1, 2, 3] : List Int) [4, 5, 6] = .ok 32 ∧
    dot_product ([1] : List Int) [] = .error .dotLenMismatch := by
  constructor
  · rw [(C3_dot_product_spec ([1, 2, 3] : List Int) [4, 5, 6]).2 rfl]
    rfl
  · exact (C3_dot_product_spec ([1] : List Int) []).1 (by decide)

/-! Section: Dimension-mismatch rejection: claim C4 -/

/-- Claim C4: with `a.col ≠ b.row`, both the sequential and the concurrent
multiply return the `DimensionMismatch` error immediately; no output matrix is
produced. -/
theorem C4_dim_mismatch_rejected [Inhabited T] [Add T] [Mul T] (a b : Matrix T)
    (h : a.col ≠ b.row) :
    multiply a b = .error .dimMismatch ∧ multiply_concurrency a b = .error .dimMismatch := by
  constructor
  · rw [multiply, if_pos h]
  · rw [multiply_concurrency, multiply_concurrency_n, multiply_concurrency_f, if_pos h]

/-- Witness for C4 at a concrete mismatched pair (1×1 times 2×1). -/
theorem C4_witness :
    multiply (⟨[1], 1, 1⟩ : Matrix Int) ⟨[1, 2], 2, 1⟩ = .error .dimMismatch ∧
    multiply_concurrency (⟨[1], 1, 1⟩ : Matrix Int) ⟨[1, 2], 2, 1⟩ = .error .dimMismatch :=
  C4_dim_mismatch_rejected ⟨[1], 1, 1⟩ ⟨[1, 2], 2, 1⟩ (by decide)

/-! Section: Receive failure aborts the whole multiply: claim C5 -/

theorem collect_error_of_none :
    ∀ (rs : List (Option (MsgOutput T))) (dat : List T),
      none ∈ rs → collect rs dat = .error .recvError := by
  intro rs
  induction rs with
  | nil => intro dat h; simp at h
  | cons r rest ih =>
    intro dat h
    cases r with
    | none => rfl
    | some m =>
      have h' : none ∈ rest := by
        rcases List.mem_cons.mp h with h | h
        · exact absurd h (by simp)
        · exact h
      exact ih (dat.set m.idx m.data) h'

/-- Claim C5: if any reply channel's receive fails (a `none` outcome: the
sender was dropped without a value), the collection loop returns the
`WorkerFailure`/`RecvError` error, so no partial output matrix is returned. -/
theorem C5_recv_failure_aborts (rs : List (Option (MsgOutput T))) (dat : List T)
    (h : none ∈ rs) : collect rs dat = .error .recvError :=
  collect_error_of_none rs dat h

/-- Witness for C5: one delivered reply followed by one failed receive. -/
theorem C5_witness :
    collect [some ⟨0, (5 : Int)⟩, none] [0, 0] = .error .recvError :=
  C5_recv_failure_aborts [some ⟨0, (5 : Int)⟩, none] [0, 0] (by decide)

/-! Section: The two multiply loops under the conformance invariant -/

theorem seqLoop_ok [Inhabited T] [Add T] [Mul T] (a b : Matrix T) :
    ∀ (ps : List (Nat × Nat)) (dat : List T),
      (∀ p ∈ ps, computeCell a b p.1 p.2 = .ok (dotSum (rowOf a p.1) (colOf b p.2))) →
      seqLoop a b ps dat =
        .ok (ps.foldl (fun d p => d.set (p.1 * b.col + p.2)
          (dotSum (rowOf a p.1) (colOf b p.2))) dat) := by
  intro ps
  induction ps with
  | nil => intro dat _; rfl
  | cons p ps ih =>
    intro dat h
    have hp := h p (by simp)
    simp only [seqLoop, hp, List.foldl_cons]
    exact ih _ (fun q hq => h q (by simp [hq]))

theorem seqLoop_panic [Inhabited T] [Add T] [Mul T] (a b : Matrix T) :
    ∀ (ps : List (Nat × Nat)) (dat : List T),
      (∀ p ∈ ps, computeCell a b p.1 p.2 = .error .panicOutOfBounds ∨
        computeCell a b p.1 p.2 = .ok (dotSum (rowOf a p.1) (colOf b p.2))) →
      (∃ p ∈ ps, computeCell a b p.1 p.2 = .error .panicOutOfBounds) →
      seqLoop a b ps dat = .error .panicOutOfBounds := by
  intro ps
  induction ps with
  | nil => intro dat _ h; simp at h
  | cons p ps ih =>
    intro dat hall hex
    rcases hall p (by simp) with hp | hp
    · simp [seqLoop, hp]
    · simp only [seqLoop, hp]
      apply ih _ (fun q hq => hall q (by simp [hq]))
      rcases hex with ⟨q, hq, hqe⟩
      rcases List.mem_cons.mp hq with rfl | hq'
      · have := hp.symm.trans hqe
        simp at this
      · exact ⟨q, hq', hqe⟩

theorem dispatchLoop_ok (a b : Matrix T) :
    ∀ (ps : List (Nat × Nat)) (acc : List (MsgInput T)),
      (∀ p ∈ ps, mkTask a b p.1 p.2 = some (taskOf a b p)) →
      dispatchLoop a b ps acc = .ok (acc ++ ps.map (taskOf a b)) := by
  intro ps
  induction ps with
  | nil => intro acc _; simp [dispatchLoop]
  | cons p ps ih =>
    intro acc h
    simp only [dispatchLoop, h p (by simp)]
    rw [ih _ (fun q hq => h q (by simp [hq]))]
    simp

theorem dispatchLoop_panic (a b : Matrix T) :
    ∀ (ps : List (Nat × Nat)) (acc : List (MsgInput T)),
      (∃ p ∈ ps, mkTask a b p.1 p.2 = none) →
      dispatchLoop a b ps acc = .error .panicOutOfBounds := by
  intro ps
  induction ps with
  | nil => intro acc h; simp at h
  | cons p ps ih =>
    intro acc hex
    cases hm : mkTask a b p.1 p.2 with
    | none => simp [dispatchLoop, hm]
    | some t =>
      simp only [dispatchLoop, hm]
      apply ih
      rcases hex with ⟨q, hq, hqe⟩
      rcases List.mem_cons.mp hq with rfl | hq'
      · exact absurd (hm.symm.trans hqe) (by simp)
      · exact ⟨q, hq', hqe⟩

/-! Section: The worker pool and result collection under the invariant -/

theorem workerRun_ok [Inhabited T] [Add T] [Mul T] :
    ∀ (q : List (MsgInput T)), (∀ m ∈ q, m.row.length = m.col.length) →
      workerRun q = q.map (fun m => (⟨m.idx, dotSum m.row m.col⟩ : MsgOutput T)) := by
  intro q
  induction q with
  | nil => intro _; rfl
  | cons m rest ih =>
    intro h
    have hd : dot_product m.row m.col = .ok (dotSum m.row m.col) := by
      rw [dot_product, if_neg (by simp [h m (by simp)])]
    simp only [workerRun, hd, List.map_cons]
    rw [ih (fun u hu => h u (by simp [hu]))]

theorem find_filter_map [Inhabited T] [Add T] [Mul T] (val : MsgInput T → T) :
    ∀ (ts : List (MsgInput T)) (pred : MsgInput T → Bool) (t : MsgInput T),
      ((ts.map MsgInput.idx).Nodup) → t ∈ ts → pred t = true →
      ((ts.filter pred).map (fun m => (⟨m.idx, val m⟩ : MsgOutput T))).find?
        (fun o => o.idx == t.idx) = some ⟨t.idx, val t⟩ := by
  intro ts pred t
  induction ts with
  | nil => intro _ h _; simp at h
  | cons u us ih =>
    intro hnd ht hp
    rw [List.map_cons, List.nodup_cons] at hnd
    obtain ⟨hni, hnd'⟩ := hnd
    rcases List.mem_cons.mp ht with rfl | ht'
    · rw [List.filter_cons, if_pos hp, List.map_cons, List.find?_cons_of_pos _ (by simp)]
    · have hne : u.idx ≠ t.idx := by
        intro he
        exact hni (he ▸ List.mem_map.mpr ⟨t, ht', rfl⟩)
      rw [List.filter_cons]
      by_cases hu : pred u = true
      · rw [if_pos hu, List.map_cons, List.find?_cons_of_neg _ (by simp [hne])]
        exact ih hnd' ht' hp
      · rw [if_neg hu]
        exact ih hnd' ht' hp

theorem repliesF_all [Inhabited T] [Add T] [Mul T] (ts : List (MsgInput T))
    (failed : Nat → Bool) (n : Nat)
    (hnd : (ts.map MsgInput.idx).Nodup)
    (hlen : ∀ u ∈ ts, u.row.length = u.col.length)
    (hnf : ∀ u ∈ ts, failed u.idx = false) :
    repliesF ts failed n =
      ts.map (fun t => some (⟨t.idx, dotSum t.row t.col⟩ : MsgOutput T)) := by
  rw [repliesF]
  apply List.map_congr_left
  intro t ht
  rw [if_neg (by simp [hnf t ht])]
  rw [workerQueueF,
    workerRun_ok _ (fun m hm => hlen m (List.mem_filter.mp hm).1)]
  exact find_filter_map (fun m => dotSum m.row m.col) ts _ t hnd ht
    (by simp [hnf t ht])

theorem collect_tasks [Inhabited T] [Add T] [Mul T] :
    ∀ (ts : List (MsgInput T)) (dat : List T),
      collect (ts.map (fun t => some (⟨t.idx, dotSum t.row t.col⟩ : MsgOutput T))) dat =
        .ok (ts.foldl (fun d t => d.set t.idx (dotSum t.row t.col)) dat) := by
  intro ts
  induction ts with
  | nil => intro dat; rfl
  | cons t rest ih =>
    intro dat
    simp only [List.map_cons, collect, List.foldl_cons]
    exact ih _

/-! Section: The central refinement: the concurrent multiply equals the
sequential multiply, for every pool size -/

theorem concurrency_eq_multiply [Inhabited T] [Add T] [Mul T] (n : Nat) (a b : Matrix T)
    (hc : a.col = b.row) (ha : a.data.length = a.row * a.col)
    (hb : b.data.length = b.row * b.col) :
    multiply_concurrency_n n a b = multiply a b := by
  have hcond : ¬(a.col ≠ b.row) := by simp [hc]
  rw [multiply_concurrency_n, multiply_concurrency_f, multiply, if_neg hcond, if_neg hcond]
  by_cases hall : ∀ p ∈ ijPairs a.row b.col, p.2 ≤ b.data.length
  · have hmk : ∀ p ∈ ijPairs a.row b.col, mkTask a b p.1 p.2 = some (taskOf a b p) := by
      intro p hp
      exact mkTask_eq a b p.1 p.2 ha (mem_ijPairs.mp hp).1 (hall p hp)
    have hts_idx : (((ijPairs a.row b.col).map (taskOf a b)).map MsgInput.idx)
        = List.range (a.row * b.col) := by
      rw [List.map_map]
      exact ijPairs_map_idx a.row b.col
    have hnd : (((ijPairs a.row b.col).map (taskOf a b)).map MsgInput.idx).Nodup := by
      rw [hts_idx]; exact List.nodup_range _
    have hlen : ∀ u ∈ (ijPairs a.row b.col).map (taskOf a b),
        u.row.length = u.col.length := by
      intro u hu
      obtain ⟨p, hp, rfl⟩ := List.mem_map.mp hu
      obtain ⟨h1, h2⟩ := mem_ijPairs.mp hp
      show (rowOf a p.1).length = (colOf b p.2).length
      rw [rowOf_length a p.1 ha h1, colOf_length b p.2 hb h2, hc]
    have hcc : ∀ p ∈ ijPairs a.row b.col,
        computeCell a b p.1 p.2 = .ok (dotSum (rowOf a p.1) (colOf b p.2)) := by
      intro p hp
      obtain ⟨h1, h2⟩ := mem_ijPairs.mp hp
      exact computeCell_ok a b p.1 p.2 hc ha hb h1 h2 (hall p hp)
    simp only [dispatchLoop_ok a b _ [] hmk, List.nil_append,
      repliesF_all ((ijPairs a.row b.col).map (taskOf a b)) (fun _ => false) n hnd hlen
        (fun u _ => rfl),
      collect_tasks, seqLoop_ok a b _ _ hcc, List.foldl_map]
    rfl
  · push_neg at hall
    obtain ⟨p0, hp0, hgt⟩ := hall
    have hpanic : ∀ p ∈ ijPairs a.row b.col,
        computeCell a b p.1 p.2 = .error .panicOutOfBounds ∨
        computeCell a b p.1 p.2 = .ok (dotSum (rowOf a p.1) (colOf b p.2)) := by
      intro p hp
      obtain ⟨h1, h2⟩ := mem_ijPairs.mp hp
      by_cases hpd : p.2 ≤ b.data.length
      · exact Or.inr (computeCell_ok a b p.1 p.2 hc ha hb h1 h2 hpd)
      · exact Or.inl (computeCell_panic a b p.1 p.2 (by omega))
    simp only [dispatchLoop_panic a b _ [] ⟨p0, hp0, mkTask_none a b p0.1 p0.2 (by omega)⟩,
      seqLoop_panic a b _ _ hpanic
        ⟨p0, hp0, computeCell_panic a b p0.1 p0.2 (by omega)⟩]

/-! Section: Claims C1 and C9 -/

/-- Claim C1: under the data-length invariant and `a.col = b.row` conformance
is not even needed beyond the invariant — for every conformant pair the
concurrent multiply returns exactly the sequential multiply's result (same
success/failure, same data, same dimensions). -/
theorem C1_concurrent_matches_sequential [Inhabited T] [Add T] [Mul T] (a b : Matrix T)
    (hc : a.col = b.row) (ha : a.data.length = a.row * a.col)
    (hb : b.data.length = b.row * b.col) :
    multiply_concurrency a b = multiply a b :=
  concurrency_eq_multiply NUM_THREADS a b hc ha hb

/-- Witness for C1 at the 2×2 matrices of the repository's own test. -/
theorem C1_witness :
    multiply_concurrency (⟨[1, 2, 3, 4], 2, 2⟩ : Matrix Int) ⟨[1, 2, 3, 4], 2, 2⟩
      = multiply (⟨[1, 2, 3, 4], 2, 2⟩ : Matrix Int) ⟨[1, 2, 3, 4], 2, 2⟩ ∧
    multiply (⟨[1, 2, 3, 4], 2, 2⟩ : Matrix Int) ⟨[1, 2, 3, 4], 2, 2⟩
      = .ok ⟨[7, 10, 15, 22], 2, 2⟩ :=
  ⟨C1_concurrent_matches_sequential ⟨[1, 2, 3, 4], 2, 2⟩ ⟨[1, 2, 3, 4], 2, 2⟩ rfl rfl rfl,
    by rfl⟩

/-- Claim C9, counterexample to the parameter part: the worker count used by
`multiply_concurrency` is the compile-time constant `NUM_THREADS = 4`; it is not
a caller-supplied parameter, so a caller cannot run the source function with
worker count 1 or 2. -/
theorem C9_counterexample : NUM_THREADS = 4 ∧ NUM_THREADS ≠ 1 ∧ NUM_THREADS ≠ 2 := by
  decide

/-- Claim C9 (amended): with the pool size modelled as a parameter `n`, every
`n ≥ 1` yields the same result as the source function (which fixes
`n = NUM_THREADS`), on every conformant input pair. -/
theorem C9_worker_count_independent [Inhabited T] [Add T] [Mul T] (n : Nat) (a b : Matrix T)
    (_hn : 1 ≤ n) (hc : a.col = b.row) (ha : a.data.length = a.row * a.col)
    (hb : b.data.length = b.row * b.col) :
    multiply_concurrency a b = multiply_concurrency_n n a b :=
  (concurrency_eq_multiply NUM_THREADS a b hc ha hb).trans
    (concurrency_eq_multiply n a b hc ha hb).symm

/-- Witness for C9 at pool sizes 4 (the source constant) and 7 (more workers
than output cells). -/
theorem C9_witness :
    multiply_concurrency (⟨[1, 2, 3, 4], 2, 2⟩ : Matrix Int) ⟨[1, 2, 3, 4], 2, 2⟩
      = multiply_concurrency_n 7 (⟨[1, 2, 3, 4], 2, 2⟩ : Matrix Int) ⟨[1, 2, 3, 4], 2, 2⟩ :=
  C9_worker_count_independent 7 ⟨[1, 2, 3, 4], 2, 2⟩ ⟨[1, 2, 3, 4], 2, 2⟩
    (by decide) rfl rfl rfl

/-! Section: Flat-index arithmetic -/

theorem idx_div (i j c : Nat) (hj : j < c) : (i * c + j) / c = i := by
  have hc : 0 < c := by omega
  rw [Nat.mul_comm i c, Nat.mul_add_div hc, Nat.div_eq_of_lt hj]
  omega

theorem idx_mod (i j c : Nat) (hj : j < c) : (i * c + j) % c = j := by
  rw [Nat.mul_comm i c, Nat.mul_add_mod, Nat.mod_eq_of_lt hj]

/-! Section: Closed form of the sequential multiply -/

theorem multiply_ok_spec [Inhabited T] [Add T] [Mul T] (a b : Matrix T)
    (hc : a.col = b.row) (ha : a.data.length = a.row * a.col)
    (hb : b.data.length = b.row * b.col)
    (hall : ∀ p ∈ ijPairs a.row b.col, p.2 ≤ b.data.length) :
    multiply a b = .ok ⟨multiplySpecData a b, a.row, b.col⟩ := by
  have hcond : ¬(a.col ≠ b.row) := by simp [hc]
  have hcc : ∀ p ∈ ijPairs a.row b.col,
      computeCell a b p.1 p.2 = .ok (dotSum (rowOf a p.1) (colOf b p.2)) := by
    intro p hp
    obtain ⟨h1, h2⟩ := mem_ijPairs.mp hp
    exact computeCell_ok a b p.1 p.2 hc ha hb h1 h2 (hall p hp)
  rw [multiply, if_neg hcond]
  simp only [seqLoop_ok a b _ _ hcc]
  have heq : (ijPairs a.row b.col).foldl
      (fun d p => d.set (p.1 * b.col + p.2) (dotSum (rowOf a p.1) (colOf b p.2)))
      (List.replicate (a.row * b.col) default) = multiplySpecData a b := by
    refine (foldl_congr_mem _ _
      (fun d p => d.set (p.1 * b.col + p.2)
        (dotSum (rowOf a ((p.1 * b.col + p.2) / b.col))
          (colOf b ((p.1 * b.col + p.2) % b.col)))) _ ?_).trans ?_
    · intro acc p hp
      obtain ⟨_, h2⟩ := mem_ijPairs.mp hp
      simp only [idx_div p.1 p.2 b.col h2, idx_mod p.1 p.2 b.col h2]
    · have h3 : (ijPairs a.row b.col).foldl
          (fun d p => d.set (p.1 * b.col + p.2)
            (dotSum (rowOf a ((p.1 * b.col + p.2) / b.col))
              (colOf b ((p.1 * b.col + p.2) % b.col))))
          (List.replicate (a.row * b.col) default)
          = ((ijPairs a.row b.col).map (fun p => p.1 * b.col + p.2)).foldl
            (fun d k => d.set k (dotSum (rowOf a (k / b.col)) (colOf b (k % b.col))))
            (List.replicate (a.row * b.col) default) :=
        (List.foldl_map (fun p : Nat × Nat => p.1 * b.col + p.2)
          (fun (d : List T) (k : Nat) =>
            d.set k (dotSum (rowOf a (k / b.col)) (colOf b (k % b.col))))
          (ijPairs a.row b.col) (List.replicate (a.row * b.col) default)).symm
      rw [h3, ijPairs_map_idx,
        foldl_set_range (fun k => dotSum (rowOf a (k / b.col)) (colOf b (k % b.col)))
          (a.row * b.col) _ (by simp)]
      simp [multiplySpecData]
  rw [heq]

/-! Section: Claim C2 -/

/-- Claim C2, counterexample: the conformant pair `a : 2×0`, `b : 0×2` (empty
data on both sides, `a.col = b.row = 0`) makes `multiply` take the slice
`b.data[1..]` of an empty vector, which panics in Rust rather than succeeding. -/
theorem C2_counterexample :
    multiply (⟨[], 2, 0⟩ : Matrix Int) ⟨[], 0, 2⟩ = .error .panicOutOfBounds := by
  rfl

/-- Claim C2 (amended): under the data-length invariant, and excluding the
panicking configurations (`b.row = 0` with `a.row ≥ 1` and `b.col ≥ 2`),
`multiply` fails with `DimensionMismatch` iff `a.col ≠ b.row`, and otherwise
succeeds with `row = a.row`, `col = b.col`, and the cell at flat index
`i * b.col + j` equal to the dot product of row `i` of `a` (the contiguous
slice) and column `j` of `b` (the stride-`b.col` elements starting at `j`). -/
theorem C2_multiply_cells [Inhabited T] [Add T] [Mul T] (a b : Matrix T)
    (ha : a.data.length = a.row * a.col) (hb : b.data.length = b.row * b.col)
    (hp : 0 < b.row ∨ a.row = 0 ∨ b.col ≤ 1) :
    (a.col ≠ b.row → multiply a b = .error .dimMismatch) ∧
    (a.col = b.row →
      multiply a b = .ok ⟨multiplySpecData a b, a.row, b.col⟩ ∧
      ∀ i j, i < a.row → j < b.col →
        (multiplySpecData a b).getD (i * b.col + j) default
          = dotSum (rowOf a i) (colOf b j)) := by
  constructor
  · intro h
    rw [multiply, if_pos h]
  · intro hc
    have hall : ∀ p ∈ ijPairs a.row b.col, p.2 ≤ b.data.length := by
      intro p hpp
      obtain ⟨h1, h2⟩ := mem_ijPairs.mp hpp
      rcases hp with hbr | hr0 | hc1
      · have : b.col ≤ b.row * b.col := Nat.le_mul_of_pos_left _ hbr
        omega
      · omega
      · omega
    refine ⟨multiply_ok_spec a b hc ha hb hall, ?_⟩
    intro i j hi hj
    have hidx : i * b.col + j < a.row * b.col := by
      have h1 : i + 1 ≤ a.row := hi
      calc i * b.col + j < i * b.col + b.col := by omega
        _ = (i + 1) * b.col := by ring
        _ ≤ a.row * b.col := Nat.mul_le_mul_right _ h1
    rw [multiplySpecData, List.getD_eq_getElem?_getD,
      List.getElem?_eq_getElem (by simpa using hidx)]
    simp [idx_div i j b.col hj, idx_mod i j b.col hj]

/-- Witness for C2 at the repository's own 2×2 test pair: the amended theorem
applies and the spec-side data evaluates to the expected product. -/
theorem C2_witness :
    multiply (⟨[1, 2, 3, 4], 2, 2⟩ : Matrix Int) ⟨[1, 2, 3, 4], 2, 2⟩
      = .ok ⟨multiplySpecData (⟨[1, 2, 3, 4], 2, 2⟩ : Matrix Int) ⟨[1, 2, 3, 4], 2, 2⟩, 2, 2⟩ ∧
    multiplySpecData (⟨[1, 2, 3, 4], 2, 2⟩ : Matrix Int) ⟨[1, 2, 3, 4], 2, 2⟩
      = [7, 10, 15, 22] :=
  ⟨((C2_multiply_cells ⟨[1, 2, 3, 4], 2, 2⟩ ⟨[1, 2, 3, 4], 2, 2⟩ rfl rfl
      (Or.inl (by decide))).2 rfl).1, by rfl⟩

/-! Section: Claim C10 -/

/-- Claim C10, counterexample: with inner dimension zero (`a : 1×0`, `b : 0×2`,
both data vectors empty) `multiply` does not succeed: the slice `b.data[1..]`
of the empty vector is out of range and the code panics. -/
theorem C10_counterexample :
    multiply (⟨[], 1, 0⟩ : Matrix Int) ⟨[], 0, 2⟩ = .error .panicOutOfBounds := by
  rfl

/-- Claim C10 (amended): with inner dimension zero and empty data, `multiply`
succeeds — returning the `a.row × b.col` all-default matrix — precisely in the
configurations that avoid the out-of-range column slice: `a.row = 0` or
`b.col ≤ 1`. -/
theorem C10_zero_inner_dim [Inhabited T] [Add T] [Mul T] (a b : Matrix T)
    (ha : a.data.length = a.row * a.col) (hb : b.data.length = b.row * b.col)
    (h0 : a.col = 0) (hbr : b.row = 0) (hp : a.row = 0 ∨ b.col ≤ 1) :
    multiply a b = .ok ⟨List.replicate (a.row * b.col) default, a.row, b.col⟩ := by
  have hc : a.col = b.row := by omega
  have hall : ∀ p ∈ ijPairs a.row b.col, p.2 ≤ b.data.length := by
    intro p hpp
    obtain ⟨h1, h2⟩ := mem_ijPairs.mp hpp
    rcases hp with h | h <;> omega
  rw [multiply_ok_spec a b hc ha hb hall]
  have hbd : b.data = [] := List.eq_nil_of_length_eq_zero (by rw [hb, hbr]; ring)
  have hw : ∀ k : Nat, dotSum (rowOf a (k / b.col)) (colOf b (k % b.col)) = (default : T) := by
    intro k
    have hrow : rowOf a (k / b.col) = [] := by
      rw [rowOf, h0]
      simp
    have hcol : colOf b (k % b.col) = [] := by
      rw [colOf, hbd]
      simp [stepBy, stepByAux]
    rw [hrow, hcol]
    rfl
  have hdat : multiplySpecData a b = List.replicate (a.row * b.col) default := by
    rw [multiplySpecData, List.map_congr_left (fun k _ => hw k)]
    simp
  rw [hdat]

/-- Witness for C10: a 3×0 times 0×1 multiply succeeds with an all-zero 3×1
result. -/
theorem C10_witness :
    multiply (⟨[], 3, 0⟩ : Matrix Int) ⟨[], 0, 1⟩
      = .ok ⟨List.replicate (3 * 1) default, 3, 1⟩ ∧
    List.replicate (3 * 1) (default : Int) = [0, 0, 0] :=
  ⟨C10_zero_inner_dim ⟨[], 3, 0⟩ ⟨[], 0, 1⟩ rfl rfl rfl rfl (Or.inr (by decide)), by rfl⟩

/-! Section: Claim C6 -/

/-- Claim C6, counterexample: with the send of the task for cell 0 failing,
the concurrent multiply does not return a zero-filled matrix — the dropped
reply sender makes the collector's receive fail and the whole multiply
returns the receive error. -/
theorem C6_counterexample :
    multiply_concurrency_f (fun k => k == 0) 4 (⟨[1, 2, 3, 4], 2, 2⟩ : Matrix Int)
        ⟨[1, 2, 3, 4], 2, 2⟩ = .error .recvError ∧
    multiply_concurrency_f (fun k => k == 0) 4 (⟨[1, 2, 3, 4], 2, 2⟩ : Matrix Int)
        ⟨[1, 2, 3, 4], 2, 2⟩ ≠ .ok ⟨[0, 10, 15, 22], 2, 2⟩ := by
  constructor
  · rfl
  · intro h
    exact Except.noConfusion ((Eq.refl (Except.error (α := Matrix Int) MulErr.recvError)).trans h)

/-- Claim C6 (amended): a failed send is only logged and dispatch continues —
every output cell still gets a dispatched task and a pending receiver — but
because the failed send drops the cell's reply sender, the collection loop's
receive for that cell fails, so the multiply returns the receive error; no
matrix with a defaulted cell is ever returned. -/
theorem C6_dispatch_failure [Inhabited T] [Add T] [Mul T] (failed : Nat → Bool) (n : Nat)
    (a b : Matrix T) (k : Nat)
    (hc : a.col = b.row) (ha : a.data.length = a.row * a.col)
    (hb : b.data.length = b.row * b.col) (hbr : 0 < b.row)
    (hk : failed k = true) (hkn : k < a.row * b.col) :
    (∃ ts, dispatchLoop a b (ijPairs a.row b.col) [] = .ok ts ∧
      (repliesF ts failed n).length = a.row * b.col) ∧
    multiply_concurrency_f failed n a b = .error .recvError := by
  have hall : ∀ p ∈ ijPairs a.row b.col, p.2 ≤ b.data.length := by
    intro p hpp
    obtain ⟨h1, h2⟩ := mem_ijPairs.mp hpp
    have : b.col ≤ b.row * b.col := Nat.le_mul_of_pos_left _ hbr
    omega
  have hmk : ∀ p ∈ ijPairs a.row b.col, mkTask a b p.1 p.2 = some (taskOf a b p) := by
    intro p hp
    exact mkTask_eq a b p.1 p.2 ha (mem_ijPairs.mp hp).1 (hall p hp)
  have hdisp : dispatchLoop a b (ijPairs a.row b.col) []
      = .ok ((ijPairs a.row b.col).map (taskOf a b)) := by
    rw [dispatchLoop_ok a b _ [] hmk, List.nil_append]
  have hc0 : 0 < b.col := by
    by_contra h
    have hz : b.col = 0 := by omega
    rw [hz, Nat.mul_zero] at hkn
    omega
  have hpmem : ((k / b.col, k % b.col) : Nat × Nat) ∈ ijPairs a.row b.col := by
    apply mem_ijPairs.mpr
    exact ⟨(Nat.div_lt_iff_lt_mul hc0).mpr hkn, Nat.mod_lt _ hc0⟩
  have hidxk : (k / b.col) * b.col + k % b.col = k := by
    rw [Nat.mul_comm]
    exact Nat.div_add_mod k b.col
  have hnone : none ∈ repliesF ((ijPairs a.row b.col).map (taskOf a b)) failed n := by
    rw [repliesF]
    refine List.mem_map.mpr ⟨taskOf a b (k / b.col, k % b.col),
      List.mem_map.mpr ⟨_, hpmem, rfl⟩, ?_⟩
    have hti : (taskOf a b (k / b.col, k % b.col)).idx = k := hidxk
    rw [hti, hk]
    rfl
  constructor
  · refine ⟨_, hdisp, ?_⟩
    rw [repliesF, List.length_map, List.length_map, ijPairs_length]
  · rw [multiply_concurrency_f, if_neg (by simp [hc])]
    simp only [hdisp, collect_error_of_none _ _ hnone]

/-- Witness for C6: send failure injected for cell 1 of the 2×2 test pair. -/
theorem C6_witness :
    (∃ ts, dispatchLoop (⟨[1, 2, 3, 4], 2, 2⟩ : Matrix Int) ⟨[1, 2, 3, 4], 2, 2⟩
        (ijPairs 2 2) [] = .ok ts ∧
      (repliesF ts (fun k => k == 1) 4).length = 2 * 2) ∧
    multiply_concurrency_f (fun k => k == 1) 4 (⟨[1, 2, 3, 4], 2, 2⟩ : Matrix Int)
      ⟨[1, 2, 3, 4], 2, 2⟩ = .error .recvError :=
  C6_dispatch_failure (fun k => k == 1) 4 ⟨[1, 2, 3, 4], 2, 2⟩ ⟨[1, 2, 3, 4], 2, 2⟩ 1
    rfl rfl rfl (by decide) (by decide) (by decide)

/-! Section: Claim C7 -/

/-- Claim C7: under the conformance invariant, every task actually built by the
multiply paths carries a row of length `a.col` and a column of length `b.row`,
so the `dot_product` it triggers takes the non-error branch — the length
mismatch error is unreachable from `multiply`. -/
theorem C7_dot_length_match [Inhabited T] [Add T] [Mul T] (a b : Matrix T) (i j : Nat)
    (t : MsgInput T) (hc : a.col = b.row) (ha : a.data.length = a.row * a.col)
    (hb : b.data.length = b.row * b.col) (hi : i < a.row) (hj : j < b.col)
    (ht : mkTask a b i j = some t) :
    t.row.length = a.col ∧ t.col.length = b.row ∧
    dot_product t.row t.col = .ok (dotSum t.row t.col) := by
  have hjd : j ≤ b.data.length := by
    by_contra h
    rw [mkTask_none a b i j (by omega)] at ht
    exact Option.noConfusion ht
  rw [mkTask_eq a b i j ha hi hjd] at ht
  obtain rfl := Option.some.inj ht
  refine ⟨rowOf_length a i ha hi, colOf_length b j hb hj, ?_⟩
  rw [dot_product,
    if_neg (by simp [rowOf_length a i ha hi, colOf_length b j hb hj, hc])]

/-- Witness for C7 at cell (0,0) of the repository's 2×2 test pair. -/
theorem C7_witness :
    (⟨0, [1, 2], [1, 3]⟩ : MsgInput Int).row.length = 2 ∧
    (⟨0, [1, 2], [1, 3]⟩ : MsgInput Int).col.length = 2 ∧
    dot_product (⟨0, [1, 2], [1, 3]⟩ : MsgInput Int).row
        (⟨0, [1, 2], [1, 3]⟩ : MsgInput Int).col
      = .ok (dotSum (⟨0, [1, 2], [1, 3]⟩ : MsgInput Int).row
        (⟨0, [1, 2], [1, 3]⟩ : MsgInput Int).col) :=
  C7_dot_length_match ⟨[1, 2, 3, 4], 2, 2⟩ ⟨[1, 2, 3, 4], 2, 2⟩ 0 0 ⟨0, [1, 2], [1, 3]⟩
    rfl rfl rfl (by decide) (by decide) (by rfl)

/-! Section: Claim C8: the Display contract -/

theorem foldl_sep_concat (g : Nat → String) (sep : String) :
    ∀ (l : List Nat) (s0 : String),
      l.foldl (fun s j => s ++ g j ++ sep) s0
        = s0 ++ strConcat (l.map (fun j => g j ++ sep)) := by
  intro l
  induction l with
  | nil => intro s0; simp [strConcat]
  | cons x xs ih =>
    intro s0
    rw [List.foldl_cons, ih, List.map_cons]
    simp [strConcat, String.append_assoc]

theorem joinSep_snoc (sep : String) :
    ∀ (xs : List String) (x : String),
      joinSep sep (xs ++ [x]) = strConcat (xs.map (fun y => y ++ sep)) ++ x := by
  intro xs
  induction xs with
  | nil => intro x; simp [joinSep, strConcat]
  | cons y ys ih =>
    intro x
    cases ys with
    | nil => simp [joinSep, strConcat, String.append_assoc]
    | cons z zs =>
      show y ++ sep ++ joinSep sep ((z :: zs) ++ [x]) = _
      rw [ih x]
      simp [strConcat, String.append_assoc]

theorem foldl_join (g : Nat → String) (sep : String) (c : Nat) (s0 : String) :
    (List.range c).foldl (fun s j => if j ≠ c - 1 then s ++ g j ++ sep else s ++ g j) s0
      = s0 ++ joinSep sep ((List.range c).map g) := by
  cases c with
  | zero => simp [joinSep]
  | succ k =>
    rw [List.range_succ, List.foldl_append, List.map_append]
    have hcong : (List.range k).foldl
        (fun s j => if j ≠ k + 1 - 1 then s ++ g j ++ sep else s ++ g j) s0
        = (List.range k).foldl (fun s j => s ++ g j ++ sep) s0 := by
      apply foldl_congr_mem
      intro acc j hj
      have hj' : j ≠ k + 1 - 1 := by
        have := List.mem_range.mp hj
        omega
      rw [if_pos hj']
    rw [hcong, foldl_sep_concat]
    simp only [List.foldl_cons, List.foldl_nil, List.map_cons, List.map_nil]
    rw [if_neg (by omega), joinSep_snoc]
    simp only [String.append_assoc, List.map_map]
    rfl

theorem rowChunk_map [Inhabited T] [ToString T] (m : Matrix T) (i : Nat)
    (h : m.data.length = m.row * m.col) (hi : i < m.row) :
    (List.range m.col).map (fun j => toString (m.data.getD (i * m.col + j) default))
      = ((m.data.take ((i + 1) * m.col)).drop (i * m.col)).map toString := by
  apply List.ext_getElem?
  intro n
  rw [List.getElem?_map, List.getElem?_map, List.getElem?_drop]
  by_cases hn : n < m.col
  · have hb1 : i * m.col + n < (i + 1) * m.col := by
      have he : (i + 1) * m.col = i * m.col + m.col := by ring
      omega
    have hb2 : i * m.col + n < m.data.length := by
      rw [h]
      have h1 : i + 1 ≤ m.row := hi
      have h2 : (i + 1) * m.col ≤ m.row * m.col := Nat.mul_le_mul_right _ h1
      omega
    rw [List.getElem?_range hn, List.getElem?_take_of_lt hb1,
      List.getElem?_eq_getElem hb2]
    simp [List.getD_eq_getElem?_getD, List.getElem?_eq_getElem hb2]
  · have hn' : m.col ≤ n := by omega
    rw [List.getElem?_eq_none (by simpa using hn'), List.getElem?_eq_none]
    · simp
    · rw [List.length_take]
      have he : (i + 1) * m.col = i * m.col + m.col := by ring
      have h2 : min ((i + 1) * m.col) m.data.length ≤ (i + 1) * m.col :=
        Nat.min_le_left _ _
      omega

/-- Claim C8: for every matrix satisfying the data-length invariant, Display
renders `\x7b` + the rows joined by `,` + `\x7d`, each row rendering its
elements space-separated with no trailing separator. -/
theorem C8_display_spec [Inhabited T] [ToString T] (m : Matrix T)
    (h : m.data.length = m.row * m.col) :
    displayMatrix m = renderSpec m := by
  rw [displayMatrix, renderSpec]
  have hinner : ∀ (i : Nat) (s : String),
      (List.range m.col).foldl (fun s j =>
        let s := s ++ toString (m.data.getD (i * m.col + j) default)
        if j ≠ m.col - 1 then s ++ " " else s) s
        = s ++ joinSep " "
            ((List.range m.col).map (fun j => toString (m.data.getD (i * m.col + j) default))) :=
    fun i s =>
      foldl_join (fun j => toString (m.data.getD (i * m.col + j) default)) " " m.col s
  have houter : (List.range m.row).foldl (fun s i =>
      ((List.range m.col).foldl (fun s j =>
        let s := s ++ toString (m.data.getD (i * m.col + j) default)
        if j ≠ m.col - 1 then s ++ " " else s) s) ++
      (if i ≠ m.row - 1 then "," else "")) ""
      = (List.range m.row).foldl (fun s i =>
          if i ≠ m.row - 1
          then s ++ joinSep " " ((List.range m.col).map
              (fun j => toString (m.data.getD (i * m.col + j) default))) ++ ","
          else s ++ joinSep " " ((List.range m.col).map
              (fun j => toString (m.data.getD (i * m.col + j) default)))) "" := by
    apply foldl_congr_mem
    intro acc i _
    rw [hinner i acc]
    by_cases hi : i ≠ m.row - 1
    · rw [if_pos hi, if_pos hi]
    · rw [if_neg hi, if_neg hi, String.append_empty]
  rw [houter, foldl_join (fun i => joinSep " " ((List.range m.col).map
      (fun j => toString (m.data.getD (i * m.col + j) default)))) "," m.row "",
    String.empty_append]
  have hmaps : (List.range m.row).map (fun i => joinSep " " ((List.range m.col).map
      (fun j => toString (m.data.getD (i * m.col + j) default))))
      = (rowsOf m).map (fun r => joinSep " " (r.map toString)) := by
    rw [rowsOf, List.map_map]
    apply List.map_congr_left
    intro i hi
    exact congrArg (joinSep " ") (rowChunk_map m i h (List.mem_range.mp hi))
  rw [hmaps]

/-- Witness for C8: the 2×2 matrix `[1,2,3,4]` renders exactly as the spec's
example string, and the rendering matches the spec-side description. -/
theorem C8_witness :
    displayMatrix (⟨[1, 2, 3, 4], 2, 2⟩ : Matrix Int)
      = renderSpec (⟨[1, 2, 3, 4], 2, 2⟩ : Matrix Int) ∧
    displayMatrix (⟨[1, 2, 3, 4], 2, 2⟩ : Matrix Int) = "\x7b1 2,3 4\x7d" :=
  ⟨C8_display_spec ⟨[1, 2, 3, 4], 2, 2⟩ rfl, by rfl⟩


end MatrixRs
